import Mathlib

/-!
# Verification of the lincolnSentinental ingestion and retrieval pipeline

Shallow embedding of the document segmentation and retrieval-filtering
pipeline (`ingest.mjs` and the query server), with theorems settling the
frozen claims about it.  Strings are modelled as `List Char`; JavaScript
regular-expression replacements are modelled by direct recursive scanners
with the same leftmost, non-overlapping, greedy matching semantics.

The scanners recurse on an explicit fuel argument so that they are
structurally recursive (and hence computable by kernel reduction).  Every
recursive call is made on a strict suffix of the input, so fuel equal to the
input length never runs out: the `0` fuel branch is unreachable from the
wrappers.
-/

set_option maxRecDepth 100000

namespace LincolnSentinental

/-- The JavaScript whitespace class `\s` (WhiteSpace plus LineTerminator). -/
def jsWs (c : Char) : Bool :=
  c == ' ' || c == '\t' || c == '\n' || c == '\r' ||
  c == '\u000B' || c == '\u000C' || c == '\u00A0' || c == '\u1680' ||
  (decide ('\u2000' ≤ c) && decide (c ≤ '\u200A')) ||
  c == '\u2028' || c == '\u2029' || c == '\u202F' || c == '\u205F' ||
  c == '\u3000' || c == '\uFEFF'

/-- JavaScript `String.prototype.trim`: strip leading and trailing whitespace. -/
def trimStr (s : List Char) : List Char :=
  ((s.dropWhile jsWs).reverse.dropWhile jsWs).reverse

/-- ASCII letter, the regex class `[A-Za-z]`. -/
def isAsciiLetter (c : Char) : Bool :=
  (decide ('A' ≤ c) && decide (c ≤ 'Z')) || (decide ('a' ≤ c) && decide (c ≤ 'z'))

/-- `cleanText` step 1: `.replace(/\r/g, '\n')`. -/
def replaceCR (s : List Char) : List Char :=
  s.map (fun c => if c == '\r' then '\n' else c)

/-- `cleanText` step 2: `.replace(/=\s*=/g, ' ')` — an `=`, optional whitespace,
then another `=`, replaced by a single space (leftmost, non-overlapping). -/
def collapseEq (s : List Char) : List Char := go s.length s
where
  go : Nat → List Char → List Char
  | 0, l => l
  | _ + 1, [] => []
  | fuel + 1, c :: rest =>
    if c == '=' then
      match rest.dropWhile jsWs with
      | '=' :: tail => ' ' :: go fuel tail
      | _ => '=' :: go fuel rest
    else c :: go fuel rest

/-- En dash or em dash, the regex class `[—–]`. -/
def isDash (c : Char) : Bool := c == '—' || c == '–'

/-- `cleanText` step 3: `.replace(/[—–]+/g, '-')` — runs of dashes become one hyphen. -/
def collapseDashes (s : List Char) : List Char := go s.length s
where
  go : Nat → List Char → List Char
  | 0, l => l
  | _ + 1, [] => []
  | fuel + 1, c :: rest =>
    if isDash c then '-' :: go fuel (rest.dropWhile isDash)
    else c :: go fuel rest

/-- `cleanText` step 4: `.replace(/([A-Za-z])-\s*\n\s*([A-Za-z])/g, '$1$2')` —
a letter, a hyphen, a whitespace run containing at least one newline, then a
letter, replaced by the two letters.  The whole match (both letters included)
is consumed, so scanning resumes after the second letter. -/
def dehyphenate (s : List Char) : List Char := go s.length s
where
  go : Nat → List Char → List Char
  | 0, l => l
  | _ + 1, [] => []
  | fuel + 1, c :: '-' :: rest2 =>
    if isAsciiLetter c then
      if (rest2.takeWhile jsWs).contains '\n' then
        match rest2.dropWhile jsWs with
        | d :: tail =>
          if isAsciiLetter d then c :: d :: go fuel tail
          else c :: go fuel ('-' :: rest2)
        | [] => c :: go fuel ('-' :: rest2)
      else c :: go fuel ('-' :: rest2)
    else c :: go fuel ('-' :: rest2)
  | fuel + 1, c :: rest => c :: go fuel rest

/-- Space or tab, the regex class `[ \t]`. -/
def isSpTab (c : Char) : Bool := c == ' ' || c == '\t'

/-- `cleanText` step 5: `.replace(/[ \t]+\n/g, '\n')` — strip trailing
horizontal whitespace before a newline. -/
def stripWsNl (s : List Char) : List Char := go s.length s
where
  go : Nat → List Char → List Char
  | 0, l => l
  | _ + 1, [] => []
  | fuel + 1, c :: rest =>
    if isSpTab c then
      match rest.dropWhile isSpTab with
      | '\n' :: tail => '\n' :: go fuel tail
      | _ => c :: go fuel rest
    else c :: go fuel rest

/-- `cleanText` step 6: `.replace(/\n{2,}/g, '\n')` — collapse newline runs. -/
def collapseNl (s : List Char) : List Char := go s.length s
where
  go : Nat → List Char → List Char
  | 0, l => l
  | _ + 1, [] => []
  | fuel + 1, c :: rest =>
    if c == '\n' then '\n' :: go fuel (rest.dropWhile (fun d => d == '\n'))
    else c :: go fuel rest

/-- `cleanText` step 7: `.replace(/[“”]/g, '"').replace(/[‘’]/g, "'")`. -/
def fixQuotes (s : List Char) : List Char :=
  (s.map (fun c => if c == '“' || c == '”' then '"' else c)).map
    (fun c => if c == '‘' || c == '’' then '\'' else c)

/-- Non-newline whitespace, the regex class `[^\S\n]`. -/
def isWsNotNl (c : Char) : Bool := jsWs c && !(c == '\n')

/-- `cleanText` step 8: `.replace(/[^\S\n]+/g, ' ')` — collapse runs of
non-newline whitespace to a single space. -/
def collapseWsNotNl (s : List Char) : List Char := go s.length s
where
  go : Nat → List Char → List Char
  | 0, l => l
  | _ + 1, [] => []
  | fuel + 1, c :: rest =>
    if isWsNotNl c then ' ' :: go fuel (rest.dropWhile isWsNotNl)
    else c :: go fuel rest

/-- `cleanText` step 9: `.replace(/\s{2,}/g, ' ')` — collapse whitespace runs
of length at least two to a single space. -/
def collapseWs2 (s : List Char) : List Char := go s.length s
where
  go : Nat → List Char → List Char
  | 0, l => l
  | _ + 1, [] => []
  | fuel + 1, c :: rest =>
    if jsWs c then
      if (match rest with | d :: _ => jsWs d | [] => false) then
        ' ' :: go fuel (rest.dropWhile jsWs)
      else c :: go fuel rest
    else c :: go fuel rest

/-- `cleanText` from `ingest.mjs`: the ten normalization steps in source order. -/
def cleanText (t : List Char) : List Char :=
  trimStr (collapseWs2 (collapseWsNotNl (fixQuotes (collapseNl (stripWsNl
    (dehyphenate (collapseDashes (collapseEq (replaceCR t)))))))))

/-! ## Chunker (`chunkText` in `ingest.mjs`) -/

/-- `const CHUNK_CHARS = 900` — target chunk size. -/
def CHUNK_CHARS : Nat := 900

/-- `const CHUNK_OVERLAP = 120` — overlap budget. -/
def CHUNK_OVERLAP : Nat := 120

/-- JavaScript `s.lastIndexOf('.', fromIdx)`: the largest index `j ≤ fromIdx`
with `s[j] = '.'`, or `-1` when there is none. -/
def lastIndexOfDot (s : List Char) (fromIdx : Nat) : Int :=
  (s.take (fromIdx + 1)).enum.foldl
    (fun acc p => if p.2 == '.' then (p.1 : Int) else acc) (-1)

/-- The (possibly sentence-snapped) end of the chunk starting at cursor `i`:
`end = min(i + size, s.length)`, snapped to `dot + 1` when the last period at
or before `end` lies strictly past `i + size * 0.5`. -/
def chunkEnd (s : List Char) (i : Nat) : Nat :=
  if lastIndexOfDot s (min (i + CHUNK_CHARS) s.length) > (i : Int) + (CHUNK_CHARS / 2 : Nat)
  then (lastIndexOfDot s (min (i + CHUNK_CHARS) s.length) + 1).toNat
  else min (i + CHUNK_CHARS) s.length

/-- The cursor advance `i = Math.max(end - overlap, end)` of `chunkText`. -/
def chunkAdvance (s : List Char) (i : Nat) : Nat :=
  max (chunkEnd s i - CHUNK_OVERLAP) (chunkEnd s i)

theorem chunkEnd_gt (s : List Char) (i : Nat) (h : i < s.length) :
    i < chunkEnd s i := by
  unfold chunkEnd CHUNK_CHARS
  split
  · next hdot => omega
  · simp
    omega

/-- `chunkText` from `ingest.mjs` (with the fixed parameters 900/120): the
`while (i < s.length)` loop emitting trimmed slices `s.slice(i, end)`,
followed by `.filter(Boolean)`, which drops empty strings.  The fuel
`s.length + 1` is enough: the cursor strictly increases on every iteration
(`chunkEnd_gt`), so the loop runs at most `s.length` times. -/
def chunkText (s : List Char) : List (List Char) :=
  (go (s.length + 1) 0).filter (fun c => !c.isEmpty)
where
  go : Nat → Nat → List (List Char)
  | 0, _ => []
  | fuel + 1, i =>
    if i < s.length then
      trimStr ((s.drop i).take (chunkEnd s i - i)) :: go fuel (chunkAdvance s i)
    else []

theorem chunkText_go_stop (s : List Char) (fuel i : Nat) (h : ¬ i < s.length) :
    chunkText.go s fuel i = [] := by
  cases fuel with
  | zero => rfl
  | succ fuel => simp [chunkText.go, h]

/-! ## Claims about the normalizer and the chunker -/

/-- **C2** (code_bug evidence). The text normalizer is *not* idempotent:
on the input `"a-\nb-\nc"` the word-rejoining rule consumes the second
letter of its match, so the second hyphen-newline wrap survives one pass
(`cleanText` gives `"ab-\nc"`) and is rejoined only by a second pass
(giving `"abc"`).  Hence `cleanText (cleanText x) ≠ cleanText x` there,
contradicting the claim that `cleanText` is idempotent for every input. -/
theorem C2_cleanText_not_idempotent :
    cleanText (cleanText ("a-\nb-\nc".toList)) ≠ cleanText ("a-\nb-\nc".toList) := by
  decide

/-- **C1** (code_bug evidence). With the fixed parameters (size 900,
overlap 120), the cursor advance `Math.max(end - overlap, end)` equals `end`,
so consecutive chunks share no characters at all.  Concretely, for 900 `'a'`s
followed by 900 `'b'`s the chunk boundary at 900 is not forced by the end of
the page text (the text has 1800 characters), yet the trailing 120 characters
of `chunk[0]` do not recur as the leading 120 characters of `chunk[1]`. -/
theorem C1_zero_overlap_at_unforced_boundary :
    (chunkText (List.replicate 900 'a' ++ List.replicate 900 'b')).length = 2 ∧
    chunkEnd (List.replicate 900 'a' ++ List.replicate 900 'b') 0 <
      (List.replicate 900 'a' ++ List.replicate 900 'b').length ∧
    ((chunkText (List.replicate 900 'a' ++ List.replicate 900 'b')).getD 0 []).drop
        (CHUNK_CHARS - CHUNK_OVERLAP) ≠
      ((chunkText (List.replicate 900 'a' ++ List.replicate 900 'b')).getD 1 []).take
        CHUNK_OVERLAP := by
  decide

/-- **C10** (confirmed). `chunkText` terminates on every finite input with the
fixed parameters: whenever the loop runs (`i < s.length`), the proposed end
`min(i + size, length)` strictly exceeds the cursor, a snapped end `dot + 1`
with `dot` strictly past `i + size/2` also strictly exceeds the cursor, the
cursor advance `Math.max(end - overlap, end)` is exactly `end` (never less),
and hence the cursor strictly increases in every iteration. -/
theorem C10_chunkText_cursor_strictly_increases (s : List Char) (i : Nat)
    (h : i < s.length) :
    i < min (i + CHUNK_CHARS) s.length ∧
    (lastIndexOfDot s (min (i + CHUNK_CHARS) s.length) > (i : Int) + (CHUNK_CHARS / 2 : Nat) →
      (i : Int) < lastIndexOfDot s (min (i + CHUNK_CHARS) s.length) + 1) ∧
    chunkAdvance s i = chunkEnd s i ∧
    i < chunkAdvance s i := by
  refine ⟨?_, ?_, ?_, ?_⟩
  · simp [CHUNK_CHARS]
    omega
  · intro hd
    omega
  · exact Nat.max_eq_right (Nat.sub_le _ _)
  · have h1 := chunkEnd_gt s i h
    have h2 : chunkAdvance s i = chunkEnd s i := Nat.max_eq_right (Nat.sub_le _ _)
    omega

/-- Witness for C10 at the concrete input `"ab"`, cursor 0. -/
theorem C10_chunkText_cursor_strictly_increases_witness :
    0 < min (0 + CHUNK_CHARS) ("ab".toList).length ∧
    (lastIndexOfDot ("ab".toList) (min (0 + CHUNK_CHARS) ("ab".toList).length) >
        ((0 : Nat) : Int) + (CHUNK_CHARS / 2 : Nat) →
      ((0 : Nat) : Int) < lastIndexOfDot ("ab".toList)
        (min (0 + CHUNK_CHARS) ("ab".toList).length) + 1) ∧
    chunkAdvance ("ab".toList) 0 = chunkEnd ("ab".toList) 0 ∧
    0 < chunkAdvance ("ab".toList) 0 :=
  C10_chunkText_cursor_strictly_increases ("ab".toList) 0 (by decide)

/-- **C7** counterexample. A 500-character page text (shorter than the target
chunk size 900) with a period at index 460 is split into *two* chunks, because
the sentence-snapping rule fires (460 is strictly past half the window) and
the cursor then continues from position 461; and a whitespace-only page text
(also shorter than 900) yields *zero* chunks, because the trimmed chunk is
empty and `.filter(Boolean)` drops it. -/
theorem C7_short_page_counterexample :
    ((List.replicate 460 'a' ++ '.' :: List.replicate 39 'b').length < CHUNK_CHARS ∧
      (chunkText (List.replicate 460 'a' ++ '.' :: List.replicate 39 'b')).length ≠ 1) ∧
    (("   ".toList).length < CHUNK_CHARS ∧ chunkText ("   ".toList) = []) := by
  decide

/-- **C7** (corrected). For a page text shorter than the target chunk size
whose trimmed form is non-empty, `chunkText` yields exactly one chunk equal to
the trimmed input *provided* the sentence-snapping rule cannot cut the text
early: the last period of the text either lies at or before half the target
size, or is the final character of the text. -/
theorem C7_short_page_single_chunk (s : List Char)
    (hlen : s.length < CHUNK_CHARS)
    (hne : trimStr s ≠ [])
    (hdot : lastIndexOfDot s s.length ≤ (CHUNK_CHARS / 2 : Nat) ∨
      lastIndexOfDot s s.length = (s.length : Int) - 1) :
    chunkText s = [trimStr s] := by
  have hs0 : s ≠ [] := by
    intro hnil
    apply hne
    rw [hnil]
    rfl
  have hpos : 0 < s.length := List.length_pos.mpr hs0
  have hmin : min (0 + CHUNK_CHARS) s.length = s.length := by
    have h900 : CHUNK_CHARS = 900 := rfl
    omega
  have hc : ((CHUNK_CHARS / 2 : Nat) : Int) = 450 := by decide
  have hend : chunkEnd s 0 = s.length := by
    unfold chunkEnd
    rw [hmin]
    rcases hdot with hd | hd
    · rw [if_neg]
      rw [hc]
      rw [hc] at hd
      intro hgt
      omega
    · split
      · omega
      · rfl
  have hadv : chunkAdvance s 0 = s.length := by
    unfold chunkAdvance
    rw [Nat.max_eq_right (Nat.sub_le _ _), hend]
  have hloop : chunkText.go s (s.length + 1) 0 = [trimStr s] := by
    rw [chunkText.go]
    rw [if_pos hpos, hend, hadv]
    rw [chunkText_go_stop s s.length s.length (by omega)]
    simp
  rw [chunkText, hloop]
  simp [List.filter_cons, List.isEmpty_iff, hne]

/-- Witness for C7 (corrected) at the concrete input `"Hi."`. -/
theorem C7_short_page_single_chunk_witness :
    chunkText ("Hi.".toList) = [trimStr ("Hi.".toList)] :=
  C7_short_page_single_chunk ("Hi.".toList) (by decide) (by decide) (Or.inl (by decide))

/-! ## TextAcquisition (`getPageCount`, `extractPageTextWithPdftotext`,
`rasterizeAndOCR` and the per-page loop of `ingestFile` in `ingest.mjs`)

The external tools are modelled by their observable results: a `spawnSync`
call by its exit status and captured output, the `pdftoppm` process by its
exit code, and the recognition engine by the text it produces. -/

/-- Result of a `spawnSync` invocation: exit status and captured streams. -/
structure SpawnResult where
  status : Int
  stdout : List Char
  stderr : List Char

/-- `.replace(/\u0000/g, '')` — drop NUL characters. -/
def stripNulls (s : List Char) : List Char :=
  s.filter (fun c => !(c == '\u0000'))

/-- One position of the regex `/Pages:\s+(\d+)/`: the literal `Pages:`, at
least one whitespace character, then the maximal run of digits, parsed as a
decimal number. -/
def pagesMatchAt (l : List Char) : Option Nat :=
  if ("Pages:".toList).isPrefixOf l then
    let r := l.drop 6
    let ws := r.takeWhile jsWs
    let ds := (r.dropWhile jsWs).takeWhile Char.isDigit
    if !ws.isEmpty && !ds.isEmpty then
      some (ds.foldl (fun n c => n * 10 + (c.toNat - 48)) 0)
    else none
  else none

/-- `stdout.match(/Pages:\s+(\d+)/)`: the leftmost match, if any. -/
def findPages : List Char → Option Nat
  | [] => none
  | c :: rest =>
    match pagesMatchAt (c :: rest) with
    | some n => some n
    | none => findPages rest

/-- `getPageCount` from `ingest.mjs`: throws when `pdfinfo` exits non-zero,
throws when the page count cannot be parsed, otherwise returns it. -/
def getPageCount (r : SpawnResult) : Except (List Char) Nat :=
  if r.status ≠ 0 then .error ("pdfinfo failed: ".toList ++ r.stderr)
  else
    match findPages r.stdout with
    | none => .error ("Could not parse page count".toList)
    | some n => .ok n

/-- `extractPageTextWithPdftotext` from `ingest.mjs`: when `pdftotext` exits
non-zero it returns the *empty string* (it does not throw); otherwise the
NUL-stripped, trimmed standard output. -/
def extractPageTextWithPdftotext (r : SpawnResult) : List Char :=
  if r.status ≠ 0 then [] else trimStr (stripNulls r.stdout)

/-- `rasterizeAndOCR` from `ingest.mjs`: the promise rejects (the error
propagates) when `pdftoppm` exits non-zero; otherwise the trimmed text
recognized from the rendered image. -/
def rasterizeAndOCR (exitCode : Int) (ocrText : List Char) : Except (List Char) (List Char) :=
  if exitCode = 0 then .ok (trimStr ocrText)
  else .error ("pdftoppm failed: ".toList ++ (toString exitCode).toList)

/-- The external observations needed to process one page of `ingestFile`. -/
structure PageOracle where
  extractRes : SpawnResult
  ppmExit : Int
  ocrText : List Char

/-- The per-page body of `ingestFile` (lines 140–149), instrumented with the
number of times `rasterizeAndOCR` is invoked: direct extraction first; when
its result is falsy (empty) or shorter than 30 characters, exactly one
recognition call, whose failure propagates; the page text is normalized with
`cleanText`, and the flag records whether recognition was used. -/
def acquirePageTr (o : PageOracle) : Except (List Char) (List Char × Bool) × Nat :=
  if (extractPageTextWithPdftotext o.extractRes).isEmpty ||
      decide ((extractPageTextWithPdftotext o.extractRes).length < 30) then
    (match rasterizeAndOCR o.ppmExit o.ocrText with
     | .error e => .error e
     | .ok t => .ok (cleanText t, true), 1)
  else (.ok (cleanText (extractPageTextWithPdftotext o.extractRes), false), 0)

/-- The per-page result of `ingestFile` (no instrumentation). -/
def acquirePage (o : PageOracle) : Except (List Char) (List Char × Bool) :=
  (acquirePageTr o).1

/-- The page loop of `ingestFile`: pages are processed sequentially and an
error on any page aborts the whole run (there is no per-page `try`). -/
def ingestPages : List PageOracle → Except (List Char) (List (List Char × Bool))
  | [] => .ok []
  | o :: rest =>
    match acquirePage o with
    | .error e => .error e
    | .ok v =>
      match ingestPages rest with
      | .error e => .error e
      | .ok vs => .ok (v :: vs)

theorem ingestPages_error_of_mem (os₁ : List PageOracle) (o : PageOracle)
    (os₂ : List PageOracle) (e : List Char) (h : acquirePage o = .error e) :
    ∃ e2, ingestPages (os₁ ++ o :: os₂) = .error e2 := by
  induction os₁ with
  | nil =>
    refine ⟨e, ?_⟩
    simp [ingestPages, h]
  | cons p rest ih =>
    obtain ⟨e2, he2⟩ := ih
    rw [List.cons_append]
    unfold ingestPages
    cases hp : acquirePage p with
    | error e3 => exact ⟨e3, rfl⟩
    | ok v =>
      rw [he2]
      exact ⟨e2, rfl⟩

/-! ## Claims about TextAcquisition -/

/-- **C3** counterexample. A non-zero exit of the text-extraction tool is
*not* fatal: `extractPageTextWithPdftotext` returns the empty string instead
of throwing, and the page silently falls back to recognition.  Here
`pdftotext` exits with status 1 while rasterization and recognition succeed,
and the page is acquired without any error. -/
theorem C3_extract_failure_not_fatal :
    acquirePage ⟨⟨1, "some extracted text".toList, []⟩, 0,
        "recognized text that is long enough to be usable.".toList⟩ =
      .ok (cleanText ("recognized text that is long enough to be usable.".toList), true) := by
  rfl

/-- **C3** (corrected).  Failure behavior of the ingestion run: a non-zero
exit of the page-count probe (`pdfinfo`) throws; a non-zero exit of the
rasterization tool (`pdftoppm`) rejects, and on *every* page that takes the
recognition path (direct extraction empty or shorter than 30 characters —
whether because `pdftotext` exited non-zero or because it succeeded with a
thin result) this error aborts the page; any page error aborts the whole run
(no per-page isolation, no retry).  However a non-zero exit of the
text-extraction tool (`pdftotext`) is *not* fatal: it yields the empty
string, which merely routes the page to the recognition fallback. -/
theorem C3_fatal_error_behavior (r : SpawnResult) (code : Int) (t : List Char)
    (o : PageOracle) (os₁ os₂ : List PageOracle) (e : List Char) :
    (r.status ≠ 0 → getPageCount r = .error ("pdfinfo failed: ".toList ++ r.stderr)) ∧
    (code ≠ 0 → rasterizeAndOCR code t =
      .error ("pdftoppm failed: ".toList ++ (toString code).toList)) ∧
    (r.status ≠ 0 → extractPageTextWithPdftotext r = []) ∧
    ((extractPageTextWithPdftotext o.extractRes).length < 30 →
      rasterizeAndOCR o.ppmExit o.ocrText = .error e →
      acquirePage o = .error e) ∧
    (acquirePage o = .error e →
      ∃ e2, ingestPages (os₁ ++ o :: os₂) = .error e2) := by
  refine ⟨?_, ?_, ?_, ?_, ?_⟩
  · intro hs
    simp [getPageCount, hs]
  · intro hc
    simp [rasterizeAndOCR, hc]
  · intro hs
    simp [extractPageTextWithPdftotext, hs]
  · intro hlt he
    simp [acquirePage, acquirePageTr, hlt, he]
  · intro he
    exact ingestPages_error_of_mem os₁ o os₂ e he

/-- Witness for C3 (corrected) at concrete failing tool results.  The
recognition-path page here has a *successful* extraction of only 2
characters, so rasterization fatality is exercised on a page that reached
recognition without any extraction-tool failure. -/
theorem C3_fatal_error_behavior_witness :
    getPageCount ⟨1, [], "boom".toList⟩ =
      .error ("pdfinfo failed: ".toList ++ "boom".toList) ∧
    rasterizeAndOCR 2 [] = .error ("pdftoppm failed: ".toList ++ (toString (2 : Int)).toList) ∧
    extractPageTextWithPdftotext ⟨1, "xyz".toList, []⟩ = [] ∧
    acquirePage ⟨⟨0, "hi".toList, []⟩, 2, []⟩ =
      .error ("pdftoppm failed: ".toList ++ (toString (2 : Int)).toList) ∧
    (∃ e2, ingestPages [⟨⟨0, "hi".toList, []⟩, 2, []⟩] = .error e2) := by
  have h := C3_fatal_error_behavior ⟨1, [], "boom".toList⟩ 2 []
    ⟨⟨0, "hi".toList, []⟩, 2, []⟩ [] []
    ("pdftoppm failed: ".toList ++ (toString (2 : Int)).toList)
  refine ⟨h.1 (by decide), h.2.1 (by decide), h.2.2.1 (by decide), ?_, ?_⟩
  · exact h.2.2.2.1 (by decide) (by rfl)
  · exact h.2.2.2.2 (h.2.2.2.1 (by decide) (by rfl))

/-- **C8** (confirmed). The recognition (OCR) path is taken if and only if
direct extraction yields an empty result or fewer than 30 characters, and in
that case `rasterizeAndOCR` is invoked exactly once for the page; with 30 or
more extracted characters it is never invoked and the page is the cleaned
extracted text with the OCR flag `false`. -/
theorem C8_ocr_exactly_when_extraction_thin (o : PageOracle) :
    ((acquirePageTr o).2 =
      if (extractPageTextWithPdftotext o.extractRes).length < 30 then 1 else 0) ∧
    (30 ≤ (extractPageTextWithPdftotext o.extractRes).length →
      (acquirePageTr o).2 = 0 ∧
      acquirePage o = .ok (cleanText (extractPageTextWithPdftotext o.extractRes), false)) ∧
    ((extractPageTextWithPdftotext o.extractRes).length < 30 →
      (acquirePageTr o).2 = 1) := by
  have hcond : ((extractPageTextWithPdftotext o.extractRes).isEmpty ||
      decide ((extractPageTextWithPdftotext o.extractRes).length < 30)) =
      decide ((extractPageTextWithPdftotext o.extractRes).length < 30) := by
    cases hemp : (extractPageTextWithPdftotext o.extractRes).isEmpty with
    | false => simp
    | true =>
      have : (extractPageTextWithPdftotext o.extractRes).length = 0 := by
        simp [List.isEmpty_iff] at hemp
        simp [hemp]
      simp [this]
  refine ⟨?_, ?_, ?_⟩
  · unfold acquirePageTr
    rw [hcond]
    by_cases hlt : (extractPageTextWithPdftotext o.extractRes).length < 30
    · simp [hlt]
    · simp [hlt]
  · intro hge
    have hlt : ¬ (extractPageTextWithPdftotext o.extractRes).length < 30 := by omega
    constructor
    · unfold acquirePageTr
      rw [hcond]
      simp [hlt]
    · unfold acquirePage acquirePageTr
      rw [hcond]
      simp [hlt]
  · intro hlt
    unfold acquirePageTr
    rw [hcond]
    simp [hlt]

/-- Witness for C8 at a concrete page whose extraction is 34 characters. -/
theorem C8_ocr_exactly_when_extraction_thin_witness :
    (acquirePageTr ⟨⟨0, "this page has plenty of real text.".toList, []⟩, 0, []⟩).2 = 0 ∧
    acquirePage ⟨⟨0, "this page has plenty of real text.".toList, []⟩, 0, []⟩ =
      .ok (cleanText (extractPageTextWithPdftotext
        ⟨0, "this page has plenty of real text.".toList, []⟩), false) :=
  (C8_ocr_exactly_when_extraction_thin
    ⟨⟨0, "this page has plenty of real text.".toList, []⟩, 0, []⟩).2.1 (by decide)

/-! ## EmbeddingBatcher (`getEmbedder` and the batch loop of `ingestFile`) -/

/-- The two shapes the embedding backend can return for a batch call: an
array of per-text results (each with its `data`), or a single tensor with
its `data` and optional `dims` (absent `dims` models a non-tensor result
whose `dims` destructures to `undefined`). -/
inductive PipelineOut (α : Type) where
  | arr : List (List α) → PipelineOut α
  | tensor : Option (List Nat) → List α → PipelineOut α

/-- The shape-normalizing closure built by `getEmbedder`: an array maps to
the list of its members' data; a tensor without `dims` or with a
one-dimensional `dims` is a single vector; otherwise the tensor data is cut
into `dims[0]` contiguous runs of length `dims[dims.length - 1]`, in input
order (`data.slice(i * dim, (i + 1) * dim)`). -/
def embedFn {α : Type} : PipelineOut α → List (List α)
  | .arr ts => ts.map (fun t => t)
  | .tensor dims data =>
    match dims with
    | none => [data]
    | some ds =>
      if ds.length = 1 then [data]
      else
        (List.range (ds.headD 0)).map
          (fun i => (data.drop (i * ds.getLastD 0)).take (ds.getLastD 0))

/-- A chunk record of `ingestFile`: page number and chunk text. -/
structure ChunkRec where
  page : Nat
  text : List Char

/-- A point upserted into the vector collection: vector plus payload. -/
structure Point (α : Type) where
  vector : List α
  page : Nat
  text : List Char

/-- The integrity checkpoint of the batch loop of `ingestFile` (lines
161–167): if the embedder returned a different number of vectors than texts,
throw; otherwise build one point per chunk, index-aligned with the batch. -/
def upsertBatch {α : Type} (batch : List ChunkRec) (vecs : List (List α)) :
    Except (List Char) (List (Point α)) :=
  if vecs.length ≠ batch.length then
    .error ("embedder returned ".toList ++ (toString vecs.length).toList ++
      " vectors for ".toList ++ (toString batch.length).toList ++ " texts".toList)
  else
    .ok (batch.zipWith (fun b v => { vector := v, page := b.page, text := b.text }) vecs)

/-! ## Claims about the EmbeddingBatcher -/

/-- **C4** (confirmed). For every ordered batch of `N` input texts the
embedding batcher returns exactly `N` vectors, index-for-index aligned with
the inputs, under each of the three backend output shapes: (1) an array of
`N` per-text results is returned as-is; (2) a combined tensor with leading
batch dimension `N` is sliced into `N` contiguous `dim`-length runs in input
order; (3) a single vector without a batch dimension (missing or
one-dimensional `dims`) yields exactly one vector; and if the resulting
vector count differs from the batch size, ingestion fails by throwing
(`upsertBatch` errors), never truncating or padding. -/
theorem C4_embed_batcher_shapes {α : Type} (ts : List (List α)) (data : List α)
    (N dim d : Nat) (batch : List ChunkRec) (vecs : List (List α)) :
    embedFn (.arr ts) = ts ∧
    embedFn (.tensor none data) = [data] ∧
    embedFn (.tensor (some [d]) data) = [data] ∧
    (embedFn (.tensor (some [N, dim]) data)).length = N ∧
    (∀ i : Nat, i < N → (embedFn (.tensor (some [N, dim]) data)).getD i [] =
      (data.drop (i * dim)).take dim) ∧
    (data.length = N * dim → ∀ i : Nat, i < N →
      ((embedFn (.tensor (some [N, dim]) data)).getD i []).length = dim) ∧
    (vecs.length ≠ batch.length → ∃ e, upsertBatch batch vecs = .error e) ∧
    (vecs.length = batch.length → ∃ pts, upsertBatch batch vecs = .ok pts ∧
      pts.length = batch.length ∧
      ∀ j : Nat, j < batch.length → (pts.getD j ⟨[], 0, []⟩).vector = vecs.getD j []) := by
  refine ⟨?_, ?_, ?_, ?_, ?_, ?_, ?_, ?_⟩
  · simp [embedFn]
  · rfl
  · rfl
  · simp [embedFn]
  · intro i hi
    simp [embedFn]
    rw [List.getElem?_range hi]
    rfl
  · intro hdata i hi
    simp [embedFn]
    rw [List.getElem?_range hi]
    simp
    have hmul : (i + 1) * dim ≤ N * dim := Nat.mul_le_mul_right dim (by omega)
    rw [Nat.succ_mul] at hmul
    omega
  · intro hne
    unfold upsertBatch
    rw [if_pos hne]
    exact ⟨_, rfl⟩
  · intro heq
    unfold upsertBatch
    rw [if_neg (by omega)]
    refine ⟨_, rfl, ?_, ?_⟩
    · simp [List.length_zipWith, heq]
    · intro j hj
      have hv : j < vecs.length := by omega
      rw [List.getD_eq_getElem?_getD, List.getElem?_zipWith]
      rw [List.getElem?_eq_getElem hj, List.getElem?_eq_getElem hv]
      simp [List.getD_eq_getElem?_getD, List.getElem?_eq_getElem hv]

/-- Witness for C4 at a concrete batch: two texts, tensor shape `[2, 2]`,
and one deliberate count mismatch. -/
theorem C4_embed_batcher_shapes_witness :
    embedFn (.arr [[(1 : Int)], [2]]) = [[(1 : Int)], [2]] ∧
    embedFn (.tensor none [(9 : Int)]) = [[(9 : Int)]] ∧
    embedFn (.tensor (some [4]) [(9 : Int)]) = [[(9 : Int)]] ∧
    (embedFn (.tensor (some [2, 2]) [(5 : Int), 6, 7, 8])).length = 2 ∧
    (embedFn (.tensor (some [2, 2]) [(5 : Int), 6, 7, 8])).getD 1 [] =
      ([(5 : Int), 6, 7, 8].drop (1 * 2)).take 2 ∧
    (∃ e, upsertBatch [⟨1, "t".toList⟩] ([] : List (List Int)) = .error e) := by
  have h := C4_embed_batcher_shapes [[(1 : Int)], [2]] [(5 : Int), 6, 7, 8] 2 2 4
    [⟨1, "t".toList⟩] ([] : List (List Int))
  have h9 := C4_embed_batcher_shapes ([] : List (List Int)) [(9 : Int)] 0 0 4 [] []
  exact ⟨h.1, h9.2.1, h9.2.2.1, h.2.2.2.1, h.2.2.2.2.1 1 (by decide),
    h.2.2.2.2.2.2.1 (by decide)⟩

/-! ## QueryRetriever (the `/ask` handler of the query server)

A search hit is modelled by the fields the handler reads from a Qdrant
result; scores are modelled as rationals (the claims involve only order
comparisons, never rounding).  JavaScript `Array.prototype.sort` with the
comparator `(a, b) => b.score - a.score` is specified to be a stable sort
whose output is ordered by that comparator; a stable sort with a consistent
comparator has a unique output, so it is modelled by the (stable, structural)
`List.insertionSort` with the relation `b.score ≤ a.score`. -/

/-- A normalized search hit of the `/ask` handler. -/
structure Hit where
  text : List Char
  filename : List Char
  page : Nat
  score : ℚ
deriving DecidableEq

/-- JavaScript `String.prototype.toLowerCase` (ASCII letters). -/
def lowerList (s : List Char) : List Char := s.map Char.toLower

/-- The regex class `[a-z0-9]`. -/
def isLowerAlnum (c : Char) : Bool :=
  (decide ('a' ≤ c) && decide (c ≤ 'z')) || (decide ('0' ≤ c) && decide (c ≤ '9'))

/-- `q.toLowerCase().match(/[a-z0-9]+/g)`: the maximal runs of lowercase
alphanumeric characters, in order. -/
def tokenRuns (p : Char → Bool) (s : List Char) : List (List Char) := go s.length s
where
  go : Nat → List Char → List (List Char)
  | 0, _ => []
  | _ + 1, [] => []
  | fuel + 1, c :: rest =>
    if p c then (c :: rest.takeWhile p) :: go fuel (rest.dropWhile p)
    else go fuel rest

/-- First-occurrence deduplication, as performed by `new Set(...)` (which
preserves insertion order) and as described by the citation step of the spec:
walk the list in order and keep each element the first time it appears. -/
def dedupFirst {β : Type} [DecidableEq β] : List β → List β
  | [] => []
  | x :: t => x :: (dedupFirst t).filter (fun y => decide (y ≠ x))

/-- `const SYNS = ['defog','defrost','demist']`. -/
def SYNS : List (List Char) := ["defog".toList, "defrost".toList, "demist".toList]

/-- `qwords`: deduplicated lowercase alphanumeric tokens of the question. -/
def qwordsOf (q : List Char) : List (List Char) :=
  dedupFirst (tokenRuns isLowerAlnum (lowerList q))

/-- `kw`: the synonym group when the question mentions any of its members,
otherwise the question tokens of length at least 4. -/
def keywordsOf (q : List Char) : List (List Char) :=
  if (qwordsOf q).contains ("defog".toList) || (qwordsOf q).contains ("defrost".toList) ||
      (qwordsOf q).contains ("demist".toList) then SYNS
  else (qwordsOf q).filter (fun w => decide (4 ≤ w.length))

/-- JavaScript `hay.includes(needle)`: substring containment. -/
def containsSub (needle : List Char) : List Char → Bool
  | [] => needle.isEmpty
  | c :: t => needle.isPrefixOf (c :: t) || containsSub needle t

/-- The score-descending order used by the sort comparator
`(a, b) => b.score - a.score`. -/
def scoreDescRel (a b : Hit) : Prop := b.score ≤ a.score

instance : DecidableRel scoreDescRel := fun a b => inferInstanceAs (Decidable (_ ≤ _))

/-- The filter funnel of the `/ask` handler (lines 139–144), *before* the
fallback: keep only hits with the same filename as `hitsRaw[0]`, drop scores
below the literal 0.45 (written `mkRat 45 100`, which is kernel-computable;
`score_floor_eq` checks it equals `(0.45 : ℚ)`), apply the keyword gate (which passes everything when the keyword
set is empty), sort by score descending, keep at most 6. -/
def filterHits (q : List Char) (hitsRaw : List Hit) : List Hit :=
  match hitsRaw with
  | [] => []
  | top :: _ =>
    (List.insertionSort scoreDescRel
      (((hitsRaw.filter (fun h => h.filename == top.filename)).filter
          (fun h => decide (mkRat 45 100 ≤ h.score))).filter
          (fun h => if (keywordsOf q).isEmpty then true
            else (keywordsOf q).any (fun w => containsSub w (lowerList h.text))))).take 6

/-- The final context list of the `/ask` handler (lines 139–147): the funnel
result, or `[hitsRaw[0]]` when the funnel eliminated everything. -/
def askHits (q : List Char) (hitsRaw : List Hit) : List Hit :=
  match hitsRaw with
  | [] => []
  | top :: _ =>
    if (filterHits q hitsRaw).isEmpty then [top] else filterHits q hitsRaw

/-- A citation: the `{filename, page}` object pushed by the handler. -/
structure Cite where
  filename : List Char
  page : Nat
deriving DecidableEq

/-- The `(filename, page)` pair of a hit. -/
def citeOf (h : Hit) : Cite := ⟨h.filename, h.page⟩

/-- The citation loop of the `/ask` handler (lines 153–159): walk the hits in
order; push the pair when no equal pair was pushed before; stop as soon as 3
pairs have been pushed. -/
def citeLoop : List Hit → List Cite → List Cite
  | [], acc => acc
  | h :: t, acc =>
    if acc.any (fun c => c.filename == h.filename && c.page == h.page) then
      citeLoop t acc
    else
      if 3 ≤ (acc ++ [(⟨h.filename, h.page⟩ : Cite)]).length then
        acc ++ [(⟨h.filename, h.page⟩ : Cite)]
      else citeLoop t (acc ++ [(⟨h.filename, h.page⟩ : Cite)])

/-- The citation list produced for the surviving hits. -/
def citations (hits : List Hit) : List Cite := citeLoop hits []

instance : IsTotal Hit scoreDescRel :=
  ⟨fun a b => le_total b.score a.score⟩

instance : IsTrans Hit scoreDescRel :=
  ⟨fun _ _ _ hab hbc => le_trans hbc hab⟩

theorem score_floor_eq : (0.45 : ℚ) = mkRat 45 100 := by norm_num

/-! ## Claims about the QueryRetriever -/

/-- **C5** (confirmed). For every non-empty candidate list (as returned by the
broad search, i.e. sorted by score descending), every candidate retained by
the filter funnel before the fallback has the same filename as the
highest-scoring candidate `top = hitsRaw[0]`, a score of at least 0.45 and at
most `top`'s, and, when the derived keyword set is non-empty, contains at
least one keyword as a case-insensitive substring; the retained list is
sorted by score descending and has at most 6 elements. -/
theorem C5_filter_funnel (q : List Char) (top : Hit) (rest : List Hit)
    (hsorted : (top :: rest).Pairwise scoreDescRel) :
    (∀ h ∈ filterHits q (top :: rest),
      h.filename = top.filename ∧ (0.45 : ℚ) ≤ h.score ∧ h.score ≤ top.score ∧
      (keywordsOf q ≠ [] → ∃ w ∈ keywordsOf q, containsSub w (lowerList h.text) = true)) ∧
    (filterHits q (top :: rest)).Pairwise scoreDescRel ∧
    (filterHits q (top :: rest)).length ≤ 6 := by
  have hfh : filterHits q (top :: rest) =
      (List.insertionSort scoreDescRel
        ((((top :: rest).filter (fun h => h.filename == top.filename)).filter
            (fun h => decide (mkRat 45 100 ≤ h.score))).filter
            (fun h => if (keywordsOf q).isEmpty then true
              else (keywordsOf q).any (fun w => containsSub w (lowerList h.text))))).take 6 := rfl
  refine ⟨?_, ?_, ?_⟩
  · intro h hh
    rw [hfh] at hh
    have h1 := (List.take_sublist 6 _).subset hh
    have h2 := (List.mem_insertionSort scoreDescRel).mp h1
    obtain ⟨h3, hkw⟩ := List.mem_filter.mp h2
    obtain ⟨h4, hsc⟩ := List.mem_filter.mp h3
    obtain ⟨h5, hfn⟩ := List.mem_filter.mp h4
    refine ⟨eq_of_beq hfn, by rw [score_floor_eq]; exact of_decide_eq_true hsc, ?_, ?_⟩
    · rcases List.mem_cons.mp h5 with he | hm
      · rw [he]
      · exact (List.pairwise_cons.mp hsorted).1 h hm
    · intro hkne
      rw [if_neg (by simp only [List.isEmpty_iff]; exact hkne)] at hkw
      obtain ⟨w, hw, hcw⟩ := List.any_eq_true.mp hkw
      exact ⟨w, hw, hcw⟩
  · rw [hfh]
    exact List.Pairwise.sublist (List.take_sublist _ _)
      (List.sorted_insertionSort scoreDescRel _)
  · rw [hfh]
    rw [List.length_take]
    exact Nat.min_le_left _ _

/-- Witness for C5 at a concrete sorted candidate list. -/
theorem C5_filter_funnel_witness :
    (filterHits ("How do I defog the windshield?".toList)
      [⟨"use the defrost setting".toList, "manual.pdf".toList, 3, mkRat 9 10⟩,
       ⟨"page about tires".toList, "manual.pdf".toList, 7, mkRat 8 10⟩]).Pairwise scoreDescRel ∧
    (filterHits ("How do I defog the windshield?".toList)
      [⟨"use the defrost setting".toList, "manual.pdf".toList, 3, mkRat 9 10⟩,
       ⟨"page about tires".toList, "manual.pdf".toList, 7, mkRat 8 10⟩]).length ≤ 6 :=
  (C5_filter_funnel ("How do I defog the windshield?".toList)
    ⟨"use the defrost setting".toList, "manual.pdf".toList, 3, mkRat 9 10⟩
    [⟨"page about tires".toList, "manual.pdf".toList, 7, mkRat 8 10⟩]
    (by decide)).2

/-- **C6** (confirmed). Whenever the broad search returned at least one
candidate, the final context list is non-empty, and when the funnel
eliminated every candidate the output is exactly the singleton `[hitsRaw[0]]`. -/
theorem C6_fallback_top_hit (q : List Char) (top : Hit) (rest : List Hit) :
    askHits q (top :: rest) ≠ [] ∧
    (filterHits q (top :: rest) = [] → askHits q (top :: rest) = [top]) := by
  have ha : askHits q (top :: rest) =
      if (filterHits q (top :: rest)).isEmpty then [top]
      else filterHits q (top :: rest) := rfl
  constructor
  · rw [ha]
    split
    · simp
    · next hne => simp only [List.isEmpty_iff] at hne; exact hne
  · intro h
    rw [ha, h]
    rfl

/-- Witness for C6: a single candidate below the score floor is eliminated by
the funnel and restored by the fallback. -/
theorem C6_fallback_top_hit_witness :
    askHits ("nothing matches here".toList)
        [⟨"tire text".toList, "f.pdf".toList, 1, mkRat 1 5⟩] =
      [⟨"tire text".toList, "f.pdf".toList, 1, mkRat 1 5⟩] :=
  (C6_fallback_top_hit ("nothing matches here".toList)
    ⟨"tire text".toList, "f.pdf".toList, 1, mkRat 1 5⟩ []).2 (by decide)

theorem dedupFirst_nodup {β : Type} [DecidableEq β] : ∀ l : List β, (dedupFirst l).Nodup
  | [] => by simp [dedupFirst]
  | x :: t => by
    rw [dedupFirst, List.nodup_cons]
    constructor
    · intro hmem
      have h2 := (List.mem_filter.mp hmem).2
      simp at h2
    · exact (dedupFirst_nodup t).filter _

theorem citeLoop_any_eq (h : Hit) (acc : List Cite) :
    (acc.any (fun c => c.filename == h.filename && c.page == h.page)) =
      decide (citeOf h ∈ acc) := by
  rw [Bool.eq_iff_iff]
  simp only [List.any_eq_true, Bool.and_eq_true, beq_iff_eq, decide_eq_true_eq]
  constructor
  · rintro ⟨c, hc, h1, h2⟩
    have : c = citeOf h := by
      cases c
      simp only [citeOf, Cite.mk.injEq]
      exact ⟨h1, h2⟩
    rwa [this] at hc
  · intro hmem
    exact ⟨citeOf h, hmem, rfl, rfl⟩

theorem citeLoop_eq (t : List Hit) : ∀ acc : List Cite, acc.length < 3 →
    citeLoop t acc = acc ++
      ((dedupFirst (t.map citeOf)).filter (fun c => decide (c ∉ acc))).take
        (3 - acc.length) := by
  induction t with
  | nil =>
    intro acc _
    simp [citeLoop, dedupFirst]
  | cons h t ih =>
    intro acc hacc
    rw [List.map_cons, dedupFirst]
    by_cases hp : citeOf h ∈ acc
    · have hstep : citeLoop (h :: t) acc = citeLoop t acc := by
        rw [citeLoop, citeLoop_any_eq, if_pos (decide_eq_true hp)]
      rw [hstep, ih acc hacc, List.filter_cons_of_neg (by simp [hp])]
      congr 2
      rw [List.filter_filter]
      apply List.filter_congr
      intro c _
      by_cases hc : c = citeOf h
      · subst hc
        simp [hp]
      · simp [hc]
    · have hstep : citeLoop (h :: t) acc =
          if 3 ≤ (acc ++ [citeOf h]).length then acc ++ [citeOf h]
          else citeLoop t (acc ++ [citeOf h]) := by
        rw [citeLoop, citeLoop_any_eq, if_neg (by simp [hp])]
        rfl
      have hfseq : ((dedupFirst (t.map citeOf)).filter
            (fun y => decide (y ≠ citeOf h))).filter (fun c => decide (c ∉ acc)) =
          (dedupFirst (t.map citeOf)).filter (fun c => decide (c ∉ acc ++ [citeOf h])) := by
        rw [List.filter_filter]
        apply List.filter_congr
        intro c _
        by_cases hc : c = citeOf h
        · subst hc
          simp
        · simp [hc]
      rw [hstep, List.filter_cons_of_pos (by simp [hp])]
      by_cases h3 : 3 ≤ (acc ++ [citeOf h]).length
      · rw [if_pos h3]
        have hlen : acc.length = 2 := by
          simp at h3
          omega
        have htake : 3 - acc.length = 1 := by omega
        rw [htake, List.take_succ_cons, List.take_zero]
      · rw [if_neg h3]
        have hlen : (acc ++ [citeOf h]).length < 3 := by omega
        rw [ih (acc ++ [citeOf h]) hlen, hfseq]
        have harith : 3 - acc.length = (3 - (acc ++ [citeOf h]).length) + 1 := by
          simp
          omega
        rw [harith, List.take_succ_cons]
        simp

/-- **C9** (confirmed). The citation list of an ordered hit sequence is
exactly the first-occurrence deduplication of the hits' `(filename, page)`
pairs capped at 3: it contains each distinct pair at most once, in the order
of each pair's first occurrence, and never more than 3 entries. -/
theorem C9_citations_dedup_first_capped (hits : List Hit) :
    citations hits = (dedupFirst (hits.map citeOf)).take 3 ∧
    (citations hits).Nodup ∧
    (citations hits).length ≤ 3 := by
  have heq : citations hits = (dedupFirst (hits.map citeOf)).take 3 := by
    have h := citeLoop_eq hits [] (by simp)
    simpa [citations] using h
  refine ⟨heq, ?_, ?_⟩
  · rw [heq]
    exact List.Nodup.sublist (List.take_sublist _ _) (dedupFirst_nodup _)
  · rw [heq]
    rw [List.length_take]
    exact Nat.min_le_left _ _

end LincolnSentinental
